import Mathlib

/- Verification of the game-and-position search core of a chess study
workstation. The definitions below are shallow embeddings of the Rust
functions of the repository (src-tauri/src): the move-blob decoder, the
position queries with exact and subset matching, the reachability pruning
predicates, the position result cache around search_position, the player
merge operation, the pawn-home fingerprint, and the puzzle catalog sampler.
The chess primitives collaborator (board bitboards, legal move enumeration,
move application, FEN parsing, SAN emission) is out of scope of the
repository and is modelled as an abstract interface. -/

set_option maxRecDepth 4000

namespace PawnAppetit

/-- Error taxonomy of the application. Only the variants reached by the
verified operations are modelled. -/
inductive Error where
  | NoMatchFound
  | SearchStopped
  | NotDistinctPlayers
  | NoPuzzles
  | FenError
  deriving DecidableEq, Repr

/-- Bitboard view of a chess board as exposed by the chess primitives
collaborator (shakmaty Board): one occupancy mask per piece role and one per
color. Masks are naturals standing for 64-bit words; the library only ever
sets bits 0..63. -/
structure Board where
  pawns : Nat
  knights : Nat
  bishops : Nat
  rooks : Nat
  queens : Nat
  kings : Nat
  white : Nat
  black : Nat
  deriving DecidableEq, Repr

/-- The bitboard of white pawns, board.by_piece(WHITE_PAWN) in the source:
the pawn role mask intersected with the white color mask. -/
def Board.whitePawns (b : Board) : Nat := b.pawns &&& b.white

/-- The bitboard of black pawns, board.by_piece(BLACK_PAWN) in the source. -/
def Board.blackPawns (b : Board) : Nat := b.pawns &&& b.black

/-- db/mod.rs get_pawn_home: the low byte of the result is the second-rank
slice of the white pawn bitboard, the high byte the seventh-rank slice of
the black pawn bitboard. The u8 casts of the source become reductions
modulo 256. -/
def get_pawn_home (b : Board) : Nat :=
  let secondRankPawns := (b.whitePawns >>> 8) % 256
  let seventhRankPawns := (b.blackPawns >>> 48) % 256
  secondRankPawns ||| (seventhRankPawns <<< 8)

/-- The standard starting board, in the bitboard encoding of the chess
library (square index 0 is a1, 8 is a2, 48 is a7, 63 is h8). -/
def standardBoard : Board where
  pawns := 0x00FF00000000FF00
  knights := 0x4200000000000042
  bishops := 0x2400000000000024
  rooks := 0x8100000000000081
  queens := 0x0800000000000008
  kings := 0x1000000000000010
  white := 0x000000000000FFFF
  black := 0xFFFF000000000000

/-- The empty board: every bitboard is zero. -/
def emptyBoard : Board where
  pawns := 0
  knights := 0
  bishops := 0
  rooks := 0
  queens := 0
  kings := 0
  white := 0
  black := 0

/-- C10: bit i of get_pawn_home, for i below 8, is the white-pawn occupancy
of the square on file i+1 of rank 2 (square index 8 + i); bit i + 8 is the
black-pawn occupancy of the square on file i+1 of rank 7 (square index
48 + i, which is 40 + (i + 8)); bits from 16 up are clear. In particular the
standard starting board yields 0xFFFF and the empty board yields 0. -/
theorem c10_get_pawn_home_bits (b : Board) (i : Nat) :
    ((get_pawn_home b).testBit i =
      (if i < 8 then b.whitePawns.testBit (8 + i)
       else if i < 16 then b.blackPawns.testBit (40 + i)
       else false))
    ∧ get_pawn_home standardBoard = 0xFFFF
    ∧ get_pawn_home emptyBoard = 0 := by
  refine ⟨?_, by decide, by decide⟩
  show ((b.whitePawns >>> 8) % 256 ||| ((b.blackPawns >>> 48) % 256) <<< 8).testBit i = _
  have h256 : (256 : Nat) = 2 ^ 8 := by norm_num
  rw [h256, Nat.testBit_or, Nat.testBit_shiftLeft, Nat.testBit_mod_two_pow,
    Nat.testBit_mod_two_pow, Nat.testBit_shiftRight, Nat.testBit_shiftRight]
  rcases Nat.lt_or_ge i 8 with h8 | h8
  · have : ¬(i ≥ 8) := by omega
    simp [h8, this]
  · rcases Nat.lt_or_ge i 16 with h16 | h16
    · have h1 : ¬(i < 8) := by omega
      have h2 : i - 8 < 8 := by omega
      have h3 : 48 + (i - 8) = 40 + i := by omega
      simp [h1, h2, h8, h3, h16]
    · have h1 : ¬(i < 8) := by omega
      have h2 : ¬(i - 8 < 8) := by omega
      have h3 : ¬(i < 16) := by omega
      simp [h1, h2, h3]

/-! ## Position queries (db/search.rs) -/

/-- Material count per color (pgn.rs MaterialCount, a ByColor of u8).
Modelled from the spec: the material of a color is a scalar derived from
the pieces remaining, monotone non-increasing in play; pgn.rs itself is
not part of the provided sources. -/
structure MaterialCount where
  white : Nat
  black : Nat
  deriving DecidableEq, Repr

/-- Structural worker for popCount; the fuel starts at the number itself,
which bounds the number of halvings. -/
def popCountAux : Nat → Nat → Nat
  | 0, _ => 0
  | fuel + 1, n => if n = 0 then 0 else n % 2 + popCountAux fuel (n / 2)

/-- Number of set bits of a natural, used to derive a material scalar from
an occupancy bitboard. -/
def popCount (n : Nat) : Nat := popCountAux n n

/-- Modelled from the spec: get_material_count of pgn.rs (not in the
provided sources) derives the per-color material scalar from the pieces
remaining on the board. -/
def get_material_count (b : Board) : MaterialCount :=
  { white := popCount b.white, black := popCount b.black }

/-- The family masks of a subset query (db/search.rs PartialMasks): one
bitboard per piece family plus a u16 of non-emptiness flags. -/
structure PartialMasks where
  kings : Nat
  queens : Nat
  rooks : Nat
  bishops : Nat
  knights : Nat
  pawns : Nat
  white : Nat
  black : Nat
  non_empty : Nat
  deriving DecidableEq, Repr

namespace PartialMasks

def KINGS : Nat := 1 <<< 0
def QUEENS : Nat := 1 <<< 1
def ROOKS : Nat := 1 <<< 2
def BISHOPS : Nat := 1 <<< 3
def KNIGHTS : Nat := 1 <<< 4
def PAWNS : Nat := 1 <<< 5
def WHITE : Nat := 1 <<< 6
def BLACK : Nat := 1 <<< 7

/-- One summand of the non-emptiness flag word: the flag constant when the
family bitboard is non-empty, else zero (one step of the |= chain in
PartialMasks::from_setup). -/
def flagIf (cond : Bool) (k : Nat) : Nat := if cond then k else 0

/-- db/search.rs PartialMasks::from_setup on the board of the parsed setup:
store the eight family bitboards and set one flag bit per non-empty
family. -/
def from_setup (b : Board) : PartialMasks where
  kings := b.kings
  queens := b.queens
  rooks := b.rooks
  bishops := b.bishops
  knights := b.knights
  pawns := b.pawns
  white := b.white
  black := b.black
  non_empty :=
    flagIf (b.kings ≠ 0) KINGS ||| flagIf (b.queens ≠ 0) QUEENS |||
    flagIf (b.rooks ≠ 0) ROOKS ||| flagIf (b.bishops ≠ 0) BISHOPS |||
    flagIf (b.knights ≠ 0) KNIGHTS ||| flagIf (b.pawns ≠ 0) PAWNS |||
    flagIf (b.white ≠ 0) WHITE ||| flagIf (b.black ≠ 0) BLACK

end PartialMasks

/-- Data of an exact query (db/search.rs ExactData): the parsed target
position together with its precomputed pawn-home word and material. -/
structure ExactData (Pos : Type) where
  pawn_home : Nat
  material : MaterialCount
  position : Pos

/-- Data of a subset query (db/search.rs PartialData): the board of the
parsed setup, its material, and the family masks. -/
structure PartialData where
  piece_positions : Board
  material : MaterialCount
  masks : PartialMasks

/-- db/search.rs PositionQuery. The constructor for subset queries is named
PartialQ here. -/
inductive PositionQuery (Pos : Type) where
  | Exact : ExactData Pos → PositionQuery Pos
  | PartialQ : PartialData → PositionQuery Pos

/-- Interface of the chess primitives collaborator (the shakmaty library,
out of scope of the repository): legal move enumeration in canonical order,
move application, SAN emission, board and side-to-move accessors, the legal
en-passant square, the default starting position, and FEN parsing. -/
structure ChessLib (Pos M : Type) where
  legalMoves : Pos → List M
  play : Pos → M → Pos
  san : Pos → M → String
  board : Pos → Board
  turn : Pos → Bool
  epLegal : Pos → Option Nat
  start : Pos
  parseFen : String → Option Pos
  parseSetupBoard : String → Option Board

/-- db/search.rs is_contained: every square of the subset bitboard is also
set in the container bitboard. -/
def is_contained (container subset : Nat) : Bool :=
  container &&& subset == subset

/-- db/search.rs PositionQuery::matches. Exact queries compare side to
move, board, and legal en-passant square (castling rights are not
compared); subset queries require each flagged family mask to be contained
in the same family of the tested board, short-circuiting on the first
failure, and accept immediately when no flag is set. -/
def PositionQuery.matches {Pos M : Type} (lib : ChessLib Pos M)
    (q : PositionQuery Pos) (position : Pos) : Bool :=
  match q with
  | .Exact data =>
    if lib.turn data.position ≠ lib.turn position then false
    else if lib.board data.position ≠ lib.board position then false
    else if lib.epLegal data.position ≠ lib.epLegal position then false
    else true
  | .PartialQ data =>
    let m := data.masks
    if m.non_empty = 0 then true
    else
      let tested := lib.board position
      if decide (m.non_empty &&& PartialMasks.KINGS ≠ 0) &&
          !(is_contained tested.kings m.kings) then false
      else if decide (m.non_empty &&& PartialMasks.QUEENS ≠ 0) &&
          !(is_contained tested.queens m.queens) then false
      else if decide (m.non_empty &&& PartialMasks.ROOKS ≠ 0) &&
          !(is_contained tested.rooks m.rooks) then false
      else if decide (m.non_empty &&& PartialMasks.BISHOPS ≠ 0) &&
          !(is_contained tested.bishops m.bishops) then false
      else if decide (m.non_empty &&& PartialMasks.KNIGHTS ≠ 0) &&
          !(is_contained tested.knights m.knights) then false
      else if decide (m.non_empty &&& PartialMasks.PAWNS ≠ 0) &&
          !(is_contained tested.pawns m.pawns) then false
      else if decide (m.non_empty &&& PartialMasks.WHITE ≠ 0) &&
          !(is_contained tested.white m.white) then false
      else if decide (m.non_empty &&& PartialMasks.BLACK ≠ 0) &&
          !(is_contained tested.black m.black) then false
      else true

/-- db/search.rs is_end_reachable: end & !pos == 0 on u16 words; the u16
complement of pos is pos xor 0xFFFF. -/
def is_end_reachable (e pos : Nat) : Bool :=
  e &&& (pos ^^^ 65535) == 0

/-- db/search.rs is_material_reachable: end material is bounded by pos
material for both colors. -/
def is_material_reachable (e pos : MaterialCount) : Bool :=
  e.white ≤ pos.white && e.black ≤ pos.black

/-- db/search.rs PositionQuery::is_reachable_by. -/
def PositionQuery.is_reachable_by {Pos : Type} (q : PositionQuery Pos)
    (material : MaterialCount) (pawn_home : Nat) : Bool :=
  match q with
  | .Exact data =>
    is_end_reachable data.pawn_home pawn_home &&
      is_material_reachable data.material material
  | .PartialQ data => is_material_reachable data.material material

/-- db/search.rs PositionQuery::can_reach. -/
def PositionQuery.can_reach {Pos : Type} (q : PositionQuery Pos)
    (material : MaterialCount) (pawn_home : Nat) : Bool :=
  match q with
  | .Exact data =>
    is_end_reachable pawn_home data.pawn_home &&
      is_material_reachable material data.material
  | .PartialQ _ => true

/-- Concrete stand-in for the chess library position type: side to move,
board, legal en-passant square, and a castling-rights word. Used to
instantiate the abstract interface in theorems about the match predicate,
where castling rights must be visible. -/
structure ConcPos where
  turn : Bool
  board : Board
  ep : Option Nat
  castles : Nat
  deriving DecidableEq, Repr

/-- Instance of the chess interface over the concrete position type. Move
generation and play are irrelevant to the match predicate and are
degenerate here. -/
def concLib : ChessLib ConcPos Unit where
  legalMoves := fun _ => []
  play := fun p _ => p
  san := fun _ _ => ""
  board := ConcPos.board
  turn := ConcPos.turn
  epLegal := ConcPos.ep
  start := ⟨false, emptyBoard, none, 0⟩
  parseFen := fun _ => some ⟨false, emptyBoard, none, 0⟩
  parseSetupBoard := fun _ => some emptyBoard

/-- A bitwise-and with a single power of two is non-zero exactly when the
corresponding bit is set. -/
theorem and_two_pow_ne_zero_iff (x i : Nat) :
    (x &&& 2 ^ i ≠ 0) ↔ x.testBit i = true := by
  constructor
  · intro h
    by_contra hb
    apply h
    apply Nat.eq_of_testBit_eq
    intro j
    rw [Nat.testBit_and, Nat.testBit_two_pow, Nat.zero_testBit]
    by_cases hij : i = j
    · subst hij
      simp only [Bool.not_eq_true] at hb
      simp [hb]
    · simp [hij]
  · intro h h0
    have h1 := congrArg (fun n => n.testBit i) h0
    simp only [Nat.testBit_and, Nat.testBit_two_pow, Nat.zero_testBit,
      decide_True, Bool.and_true, decide_eq_true_eq] at h1
    rw [h] at h1
    simp at h1

/-- Bit i of a flag summand: set exactly when the condition holds and the
flag constant, written as a power of two, has that bit. -/
theorem testBit_flagIf_pow (c : Bool) (j i : Nat) :
    (PartialMasks.flagIf c (2 ^ j)).testBit i = (c && decide (j = i)) := by
  cases c <;> simp [PartialMasks.flagIf, Nat.testBit_two_pow]

section FlagLemmas

variable (sb : Board)

theorem from_setup_flag_kings :
    ((PartialMasks.from_setup sb).non_empty &&& PartialMasks.KINGS ≠ 0) ↔
      sb.kings ≠ 0 := by
  rw [show PartialMasks.KINGS = 2 ^ 0 by decide, and_two_pow_ne_zero_iff]
  simp only [PartialMasks.from_setup, show PartialMasks.KINGS = 2 ^ 0 by decide,
    show PartialMasks.QUEENS = 2 ^ 1 by decide, show PartialMasks.ROOKS = 2 ^ 2 by decide,
    show PartialMasks.BISHOPS = 2 ^ 3 by decide, show PartialMasks.KNIGHTS = 2 ^ 4 by decide,
    show PartialMasks.PAWNS = 2 ^ 5 by decide, show PartialMasks.WHITE = 2 ^ 6 by decide,
    show PartialMasks.BLACK = 2 ^ 7 by decide, Nat.testBit_or, testBit_flagIf_pow]
  simp

theorem from_setup_flag_queens :
    ((PartialMasks.from_setup sb).non_empty &&& PartialMasks.QUEENS ≠ 0) ↔
      sb.queens ≠ 0 := by
  rw [show PartialMasks.QUEENS = 2 ^ 1 by decide, and_two_pow_ne_zero_iff]
  simp only [PartialMasks.from_setup, show PartialMasks.KINGS = 2 ^ 0 by decide,
    show PartialMasks.QUEENS = 2 ^ 1 by decide, show PartialMasks.ROOKS = 2 ^ 2 by decide,
    show PartialMasks.BISHOPS = 2 ^ 3 by decide, show PartialMasks.KNIGHTS = 2 ^ 4 by decide,
    show PartialMasks.PAWNS = 2 ^ 5 by decide, show PartialMasks.WHITE = 2 ^ 6 by decide,
    show PartialMasks.BLACK = 2 ^ 7 by decide, Nat.testBit_or, testBit_flagIf_pow]
  simp

theorem from_setup_flag_rooks :
    ((PartialMasks.from_setup sb).non_empty &&& PartialMasks.ROOKS ≠ 0) ↔
      sb.rooks ≠ 0 := by
  rw [show PartialMasks.ROOKS = 2 ^ 2 by decide, and_two_pow_ne_zero_iff]
  simp only [PartialMasks.from_setup, show PartialMasks.KINGS = 2 ^ 0 by decide,
    show PartialMasks.QUEENS = 2 ^ 1 by decide, show PartialMasks.ROOKS = 2 ^ 2 by decide,
    show PartialMasks.BISHOPS = 2 ^ 3 by decide, show PartialMasks.KNIGHTS = 2 ^ 4 by decide,
    show PartialMasks.PAWNS = 2 ^ 5 by decide, show PartialMasks.WHITE = 2 ^ 6 by decide,
    show PartialMasks.BLACK = 2 ^ 7 by decide, Nat.testBit_or, testBit_flagIf_pow]
  simp

theorem from_setup_flag_bishops :
    ((PartialMasks.from_setup sb).non_empty &&& PartialMasks.BISHOPS ≠ 0) ↔
      sb.bishops ≠ 0 := by
  rw [show PartialMasks.BISHOPS = 2 ^ 3 by decide, and_two_pow_ne_zero_iff]
  simp only [PartialMasks.from_setup, show PartialMasks.KINGS = 2 ^ 0 by decide,
    show PartialMasks.QUEENS = 2 ^ 1 by decide, show PartialMasks.ROOKS = 2 ^ 2 by decide,
    show PartialMasks.BISHOPS = 2 ^ 3 by decide, show PartialMasks.KNIGHTS = 2 ^ 4 by decide,
    show PartialMasks.PAWNS = 2 ^ 5 by decide, show PartialMasks.WHITE = 2 ^ 6 by decide,
    show PartialMasks.BLACK = 2 ^ 7 by decide, Nat.testBit_or, testBit_flagIf_pow]
  simp

theorem from_setup_flag_knights :
    ((PartialMasks.from_setup sb).non_empty &&& PartialMasks.KNIGHTS ≠ 0) ↔
      sb.knights ≠ 0 := by
  rw [show PartialMasks.KNIGHTS = 2 ^ 4 by decide, and_two_pow_ne_zero_iff]
  simp only [PartialMasks.from_setup, show PartialMasks.KINGS = 2 ^ 0 by decide,
    show PartialMasks.QUEENS = 2 ^ 1 by decide, show PartialMasks.ROOKS = 2 ^ 2 by decide,
    show PartialMasks.BISHOPS = 2 ^ 3 by decide, show PartialMasks.KNIGHTS = 2 ^ 4 by decide,
    show PartialMasks.PAWNS = 2 ^ 5 by decide, show PartialMasks.WHITE = 2 ^ 6 by decide,
    show PartialMasks.BLACK = 2 ^ 7 by decide, Nat.testBit_or, testBit_flagIf_pow]
  simp

theorem from_setup_flag_pawns :
    ((PartialMasks.from_setup sb).non_empty &&& PartialMasks.PAWNS ≠ 0) ↔
      sb.pawns ≠ 0 := by
  rw [show PartialMasks.PAWNS = 2 ^ 5 by decide, and_two_pow_ne_zero_iff]
  simp only [PartialMasks.from_setup, show PartialMasks.KINGS = 2 ^ 0 by decide,
    show PartialMasks.QUEENS = 2 ^ 1 by decide, show PartialMasks.ROOKS = 2 ^ 2 by decide,
    show PartialMasks.BISHOPS = 2 ^ 3 by decide, show PartialMasks.KNIGHTS = 2 ^ 4 by decide,
    show PartialMasks.PAWNS = 2 ^ 5 by decide, show PartialMasks.WHITE = 2 ^ 6 by decide,
    show PartialMasks.BLACK = 2 ^ 7 by decide, Nat.testBit_or, testBit_flagIf_pow]
  simp

theorem from_setup_flag_white :
    ((PartialMasks.from_setup sb).non_empty &&& PartialMasks.WHITE ≠ 0) ↔
      sb.white ≠ 0 := by
  rw [show PartialMasks.WHITE = 2 ^ 6 by decide, and_two_pow_ne_zero_iff]
  simp only [PartialMasks.from_setup, show PartialMasks.KINGS = 2 ^ 0 by decide,
    show PartialMasks.QUEENS = 2 ^ 1 by decide, show PartialMasks.ROOKS = 2 ^ 2 by decide,
    show PartialMasks.BISHOPS = 2 ^ 3 by decide, show PartialMasks.KNIGHTS = 2 ^ 4 by decide,
    show PartialMasks.PAWNS = 2 ^ 5 by decide, show PartialMasks.WHITE = 2 ^ 6 by decide,
    show PartialMasks.BLACK = 2 ^ 7 by decide, Nat.testBit_or, testBit_flagIf_pow]
  simp

theorem from_setup_flag_black :
    ((PartialMasks.from_setup sb).non_empty &&& PartialMasks.BLACK ≠ 0) ↔
      sb.black ≠ 0 := by
  rw [show PartialMasks.BLACK = 2 ^ 7 by decide, and_two_pow_ne_zero_iff]
  simp only [PartialMasks.from_setup, show PartialMasks.KINGS = 2 ^ 0 by decide,
    show PartialMasks.QUEENS = 2 ^ 1 by decide, show PartialMasks.ROOKS = 2 ^ 2 by decide,
    show PartialMasks.BISHOPS = 2 ^ 3 by decide, show PartialMasks.KNIGHTS = 2 ^ 4 by decide,
    show PartialMasks.PAWNS = 2 ^ 5 by decide, show PartialMasks.WHITE = 2 ^ 6 by decide,
    show PartialMasks.BLACK = 2 ^ 7 by decide, Nat.testBit_or, testBit_flagIf_pow]
  simp

end FlagLemmas

/-- One step of the short-circuiting check chain: the chain yields true
exactly when the guard is false and the remaining chain yields true. -/
theorem if_bool_chain (c rest : Bool) :
    ((if c = true then false else rest) = true) ↔ (c = false ∧ rest = true) := by
  cases c <;> simp

/-- A guard of the form flag-and-not-contained is false exactly when the
flag condition implies containment. -/
theorem guard_false_iff (p : Prop) [Decidable p] (b : Bool) :
    ((decide p && !b) = false) ↔ (p → b = true) := by
  by_cases hp : p <;> cases b <;> simp [hp]

/-- Target data of the counterexample to claim C1: an exact query whose
target pawn-home word is 0xFFFF and whose target material is 16 pieces per
color, as precomputed from the standard starting position. -/
def c1TargetData : ExactData ConcPos :=
  { pawn_home := 65535
    material := { white := 16, black := 16 }
    position := { turn := false, board := emptyBoard, ep := none, castles := 0 } }

/-- C1, counterexample. The claim states that for an exact query with
target E, can_reach on candidate C is true iff
E.pawn_home AND NOT C.pawn_home is zero and the target material is bounded
by the candidate material. With E.pawn_home = 0xFFFF, E.material = (16,16)
and a candidate with pawn_home 0 and material (0,0), the source can_reach
returns true while the formula of the claim is false: the source compares
in the opposite direction (candidate against target). -/
theorem c1_can_reach_counterexample :
    ¬ (((PositionQuery.Exact c1TargetData).can_reach
          { white := 0, black := 0 } 0 = true) ↔
        (c1TargetData.pawn_home &&& ((0 : Nat) ^^^ 65535) = 0 ∧
         c1TargetData.material.white ≤ 0 ∧ c1TargetData.material.black ≤ 0)) := by
  decide

/-- C1, amended: for an exact query with target E, can_reach on candidate
material and pawn-home C is true iff C.pawn_home AND NOT E.pawn_home is
zero (the u16 complement of E.pawn_home is E.pawn_home xor 0xFFFF) and
C.material.white is at most E.material.white and C.material.black is at
most E.material.black, that is, the candidate values are bounded by the
target; for a partial query can_reach is true unconditionally. -/
theorem c1_can_reach_amended {Pos : Type} (q : PositionQuery Pos)
    (mat : MaterialCount) (ph : Nat) :
    q.can_reach mat ph = true ↔
      (match q with
       | .Exact d => ph &&& (d.pawn_home ^^^ 65535) = 0 ∧
           mat.white ≤ d.material.white ∧ mat.black ≤ d.material.black
       | .PartialQ _ => True) := by
  cases q with
  | Exact d =>
    simp [PositionQuery.can_reach, is_end_reachable, is_material_reachable,
      Bool.and_eq_true, beq_iff_eq, decide_eq_true_eq, and_assoc]
  | PartialQ d => simp [PositionQuery.can_reach]

/-- C4: an exact query matches a candidate position iff the target side to
move, board, and legal en-passant square all equal the candidate values;
the castling-rights component of the candidate is never inspected, so two
candidates differing only in castling rights are treated alike. -/
theorem c4_exact_match_characterization (d : ExactData ConcPos) (c : ConcPos) :
    ((PositionQuery.Exact d).matches concLib c = true ↔
      (d.position.turn = c.turn ∧ d.position.board = c.board ∧
        d.position.ep = c.ep))
    ∧ ∀ w : Nat,
        (PositionQuery.Exact d).matches concLib
            { turn := c.turn, board := c.board, ep := c.ep, castles := w } =
          (PositionQuery.Exact d).matches concLib c := by
  constructor
  · by_cases h1 : d.position.turn = c.turn <;>
      by_cases h2 : d.position.board = c.board <;>
      by_cases h3 : d.position.ep = c.ep <;>
      simp [PositionQuery.matches, concLib, h1, h2, h3]
  · intro w
    rfl

/-- C5: a subset query built by from_setup matches a candidate iff, for
each of the eight families whose query bitboard is non-empty, the query
bitboard is contained in the same family of the candidate board; in
particular the subset query of the empty board matches every candidate. -/
theorem c5_partial_match_characterization (sb : Board) (mat : MaterialCount)
    (c : ConcPos) :
    ((PositionQuery.PartialQ
        { piece_positions := sb, material := mat,
          masks := PartialMasks.from_setup sb } :
        PositionQuery ConcPos).matches concLib c = true ↔
      ((sb.kings ≠ 0 → is_contained c.board.kings sb.kings = true) ∧
       (sb.queens ≠ 0 → is_contained c.board.queens sb.queens = true) ∧
       (sb.rooks ≠ 0 → is_contained c.board.rooks sb.rooks = true) ∧
       (sb.bishops ≠ 0 → is_contained c.board.bishops sb.bishops = true) ∧
       (sb.knights ≠ 0 → is_contained c.board.knights sb.knights = true) ∧
       (sb.pawns ≠ 0 → is_contained c.board.pawns sb.pawns = true) ∧
       (sb.white ≠ 0 → is_contained c.board.white sb.white = true) ∧
       (sb.black ≠ 0 → is_contained c.board.black sb.black = true)))
    ∧ (PositionQuery.PartialQ
        { piece_positions := emptyBoard, material := mat,
          masks := PartialMasks.from_setup emptyBoard } :
        PositionQuery ConcPos).matches concLib c = true := by
  constructor
  · show (if (PartialMasks.from_setup sb).non_empty = 0 then true else _) = true ↔ _
    by_cases hne : (PartialMasks.from_setup sb).non_empty = 0
    · rw [if_pos hne]
      have hk : sb.kings = 0 := by
        by_contra h
        exact ((from_setup_flag_kings sb).mpr h) (by rw [hne]; decide)
      have hq : sb.queens = 0 := by
        by_contra h
        exact ((from_setup_flag_queens sb).mpr h) (by rw [hne]; decide)
      have hr : sb.rooks = 0 := by
        by_contra h
        exact ((from_setup_flag_rooks sb).mpr h) (by rw [hne]; decide)
      have hb : sb.bishops = 0 := by
        by_contra h
        exact ((from_setup_flag_bishops sb).mpr h) (by rw [hne]; decide)
      have hn : sb.knights = 0 := by
        by_contra h
        exact ((from_setup_flag_knights sb).mpr h) (by rw [hne]; decide)
      have hp : sb.pawns = 0 := by
        by_contra h
        exact ((from_setup_flag_pawns sb).mpr h) (by rw [hne]; decide)
      have hw : sb.white = 0 := by
        by_contra h
        exact ((from_setup_flag_white sb).mpr h) (by rw [hne]; decide)
      have hbl : sb.black = 0 := by
        by_contra h
        exact ((from_setup_flag_black sb).mpr h) (by rw [hne]; decide)
      simp [hk, hq, hr, hb, hn, hp, hw, hbl]
    · rw [if_neg hne]
      rw [if_bool_chain, if_bool_chain, if_bool_chain, if_bool_chain,
        if_bool_chain, if_bool_chain, if_bool_chain, if_bool_chain]
      rw [guard_false_iff, guard_false_iff, guard_false_iff, guard_false_iff,
        guard_false_iff, guard_false_iff, guard_false_iff, guard_false_iff]
      rw [from_setup_flag_kings, from_setup_flag_queens, from_setup_flag_rooks,
        from_setup_flag_bishops, from_setup_flag_knights, from_setup_flag_pawns,
        from_setup_flag_white, from_setup_flag_black]
      simp [concLib, PartialMasks.from_setup]
  · rfl

/-! ## The move-blob decoder (db/search.rs MoveStream) -/

/-- Big-endian value of a byte list (u64::from_be_bytes on the 8-byte
comment length header). -/
def beValue (bytes : List Nat) : Nat :=
  bytes.foldl (fun acc b => acc * 256 + b) 0

/-- The inner loop of the begin-variation branch of MoveStream::next_move:
starting behind the 254 byte with depth 1, advance over the bytes, raising
the depth on 254 and lowering it on 253, until the depth reaches zero or
the input ends; the returned index is one past the matching 253. -/
def skipVariation (bytes : List Nat) (i d : Nat) : Nat :=
  if h : i < bytes.length ∧ 0 < d then
    let b := bytes.get ⟨i, h.1⟩
    let d2 := if b = 254 then d + 1 else if b = 253 then d - 1 else d
    skipVariation bytes (i + 1) d2
  else i
termination_by bytes.length - i
decreasing_by simp_wf; omega

/-- The variation skipper never moves backwards. -/
theorem skipVariation_ge (bytes : List Nat) (i d : Nat) :
    i ≤ skipVariation bytes i d := by
  rw [skipVariation]
  split
  · next h =>
    show i ≤ skipVariation bytes (i + 1)
      (if bytes.get ⟨i, h.1⟩ = 254 then d + 1
       else if bytes.get ⟨i, h.1⟩ = 253 then d - 1 else d)
    have h2 := skipVariation_ge bytes (i + 1)
      (if bytes.get ⟨i, h.1⟩ = 254 then d + 1
       else if bytes.get ⟨i, h.1⟩ = 253 then d - 1 else d)
    omega
  · exact Nat.le_refl i
termination_by bytes.length - i
decreasing_by simp_wf; omega

/-- db/search.rs MoveStream::next_move, embedded over the decoder state
(byte index and current position). Byte 252 skips an 8-byte big-endian
length header and that many comment bytes (stopping when fewer than 8
header bytes remain); byte 251 skips itself and the 1-byte NAG payload;
byte 254 skips to the matching 253 at the current depth; byte 253 stops;
any other byte is an index into the canonical legal move list of the
current position, applied and emitted with its SAN, or the end of valid
data when out of range. Returns the new index, the position after the
move, and the SAN string. -/
def nextMove {Pos M : Type} (lib : ChessLib Pos M) (bytes : List Nat)
    (i : Nat) (pos : Pos) : Option (Nat × Pos × String) :=
  if h : i < bytes.length then
    let b := bytes.get ⟨i, h⟩
    if b = 252 then
      if bytes.length ≤ i + 8 then none
      else
        let len := beValue ((bytes.drop (i + 1)).take 8)
        nextMove lib bytes (i + 9 + len) pos
    else if b = 251 then nextMove lib bytes (i + 2) pos
    else if b = 254 then nextMove lib bytes (skipVariation bytes (i + 1) 1) pos
    else if b = 253 then none
    else
      let lm := lib.legalMoves pos
      if hb : b < lm.length then
        some (i + 1, lib.play pos (lm.get ⟨b, hb⟩), lib.san pos (lm.get ⟨b, hb⟩))
      else none
  else none
termination_by bytes.length - i
decreasing_by
  · simp_wf; omega
  · simp_wf; omega
  · simp_wf
    have := skipVariation_ge bytes (i + 1) 1
    omega

/-- The decoder step exactly as claim C3 words it: 252 skips the 8-byte
big-endian length and that many comment bytes, 251 skips the 1-byte NAG
payload, 254 skips until the matching 253 at the current nesting depth, and
every other byte is looked up in the canonical legal move list of the
current position, applied and emitted; the step stops at the end of input
or at the first byte whose index is out of range of the legal move list. -/
def claimNextMove {Pos M : Type} (lib : ChessLib Pos M) (bytes : List Nat)
    (i : Nat) (pos : Pos) : Option (Nat × Pos × String) :=
  if h : i < bytes.length then
    let b := bytes.get ⟨i, h⟩
    if b = 252 then
      if bytes.length ≤ i + 8 then none
      else
        let len := beValue ((bytes.drop (i + 1)).take 8)
        claimNextMove lib bytes (i + 9 + len) pos
    else if b = 251 then claimNextMove lib bytes (i + 2) pos
    else if b = 254 then claimNextMove lib bytes (skipVariation bytes (i + 1) 1) pos
    else
      let lm := lib.legalMoves pos
      if hb : b < lm.length then
        some (i + 1, lib.play pos (lm.get ⟨b, hb⟩), lib.san pos (lm.get ⟨b, hb⟩))
      else none
  else none
termination_by bytes.length - i
decreasing_by
  · simp_wf; omega
  · simp_wf; omega
  · simp_wf
    have := skipVariation_ge bytes (i + 1) 1
    omega

/-- C3: on inputs where every position offers at most 251 legal moves (the
guarantee of the encoding), the embedded MoveStream::next_move agrees with
the decoder exactly as the claim describes it, for every byte sequence,
index, and starting position. The only textual difference is the stray
end-variation byte 253, which the source stops on explicitly and the claim
covers by the out-of-range rule, since 253 exceeds every legal move
count. -/
theorem c3_next_move_decoder {Pos M : Type} (lib : ChessLib Pos M)
    (bytes : List Nat) (i : Nat) (pos : Pos)
    (hlm : ∀ p : Pos, (lib.legalMoves p).length ≤ 251) :
    nextMove lib bytes i pos = claimNextMove lib bytes i pos := by
  rw [nextMove, claimNextMove]
  split
  · next h =>
    by_cases h252 : bytes.get ⟨i, h⟩ = 252
    · rw [if_pos h252, if_pos h252]
      by_cases hlen : bytes.length ≤ i + 8
      · rw [if_pos hlen, if_pos hlen]
      · rw [if_neg hlen, if_neg hlen]
        exact c3_next_move_decoder lib bytes
          (i + 9 + beValue ((bytes.drop (i + 1)).take 8)) pos hlm
    · rw [if_neg h252, if_neg h252]
      by_cases h251 : bytes.get ⟨i, h⟩ = 251
      · rw [if_pos h251, if_pos h251]
        exact c3_next_move_decoder lib bytes (i + 2) pos hlm
      · rw [if_neg h251, if_neg h251]
        by_cases h254 : bytes.get ⟨i, h⟩ = 254
        · rw [if_pos h254, if_pos h254]
          exact c3_next_move_decoder lib bytes (skipVariation bytes (i + 1) 1) pos hlm
        · rw [if_neg h254, if_neg h254]
          by_cases h253 : bytes.get ⟨i, h⟩ = 253
          · rw [if_pos h253]
            have hcnt := hlm pos
            rw [dif_neg (by rw [h253]; omega)]
          · rw [if_neg h253]
  · rfl
termination_by bytes.length - i
decreasing_by
  · simp_wf; omega
  · simp_wf; omega
  · simp_wf
    have := skipVariation_ge bytes (i + 1) 1
    omega

/-- C3, witness: the agreement evaluated at a concrete byte sequence and
the degenerate concrete chess interface, whose legal move lists are empty
and in particular never longer than 251. -/
theorem c3_next_move_decoder_witness :
    nextMove concLib [252, 7, 251, 9, 254, 3, 253, 5] 0 concLib.start =
      claimNextMove concLib [252, 7, 251, 9, 254, 3, 253, 5] 0 concLib.start :=
  c3_next_move_decoder concLib [252, 7, 251, 9, 254, 3, 253, 5] 0 concLib.start
    (fun p => by simp [concLib])

/-! ## Continuation extraction (db/search.rs get_move_after_match) -/

/-- Modelled from the spec: decode_move of db/encoding.rs, which is not in
the provided sources. A byte at or above 251 is a sentinel, never a move;
any other byte is the index of a move in the canonical legal move list of
the position, and an out-of-range index is rejected. -/
def decode_move {Pos M : Type} (lib : ChessLib Pos M) (b : Nat) (pos : Pos) :
    Option M :=
  if 251 ≤ b then none else (lib.legalMoves pos).get? b

/-- The starting position of a game row: the parsed FEN when one is stored
(setup interpreted in Chess960 castling mode), else the default starting
position; a parse failure surfaces as FenError. -/
def startOf {Pos M : Type} (lib : ChessLib Pos M) (fen : Option String) :
    Except Error Pos :=
  match fen with
  | some f =>
    match lib.parseFen f with
    | some p => .ok p
    | none => .error .FenError
  | none => .ok lib.start

/-- The byte loop of get_move_after_match: decode each byte as a move,
stopping on a decode failure; play it; give up when the target is no
longer reachable through the new position; on the first match return the
game end marker when the matching byte was the last one, else the SAN of
the next decoded byte (or nothing when that byte fails to decode). -/
def gmamLoop {Pos M : Type} (lib : ChessLib Pos M) (q : PositionQuery Pos) :
    List Nat → Pos → Option String
  | [], _ => none
  | b :: rest, chess =>
    match decode_move lib b chess with
    | none => none
    | some m =>
      let chess2 := lib.play chess m
      if (q.is_reachable_by (get_material_count (lib.board chess2))
            (get_pawn_home (lib.board chess2))) = false then none
      else if q.matches lib chess2 = true then
        match rest with
        | [] => some "*"
        | nb :: _ =>
          match decode_move lib nb chess2 with
          | some nm => some (lib.san chess2 nm)
          | none => none
      else gmamLoop lib q rest chess2

/-- db/search.rs get_move_after_match: parse the starting position, test
it against the query first (there the continuation is the first decoded
byte, or the game end marker when the blob is empty), then walk the blob
with the byte loop. -/
def get_move_after_match {Pos M : Type} (lib : ChessLib Pos M)
    (move_blob : List Nat) (fen : Option String) (q : PositionQuery Pos) :
    Except Error (Option String) :=
  match startOf lib fen with
  | .error e => .error e
  | .ok chess =>
    if q.matches lib chess = true then
      match move_blob with
      | [] => .ok (some "*")
      | b :: _ =>
        match decode_move lib b chess with
        | some m => .ok (some (lib.san chess m))
        | none => .ok none
    else .ok (gmamLoop lib q move_blob chess)

/-- Replay of a byte list as decoded moves: the position reached after
decoding and applying every byte in order, or nothing as soon as a byte
fails to decode as a move. -/
def replayMoves {Pos M : Type} (lib : ChessLib Pos M) :
    List Nat → Pos → Option Pos
  | [], pos => some pos
  | b :: rest, pos =>
    match decode_move lib b pos with
    | some m => replayMoves lib rest (lib.play pos m)
    | none => none

/-- Soundness of the byte loop: a reported continuation splits the blob
into a decodable prefix reaching a matching position and a suffix holding
the continuation byte (or nothing, for a match on the last byte). -/
theorem gmamLoop_spec {Pos M : Type} (lib : ChessLib Pos M)
    (q : PositionQuery Pos) (blob : List Nat) (chess : Pos) (s : String)
    (h : gmamLoop lib q blob chess = some s) :
    ∃ pre suf, blob = pre ++ suf ∧
      ∃ p, replayMoves lib pre chess = some p ∧ q.matches lib p = true ∧
        ((suf = [] ∧ s = "*") ∨
         (∃ nb suf2, suf = nb :: suf2 ∧
            ∃ nm, decode_move lib nb p = some nm ∧ s = lib.san p nm)) := by
  induction blob generalizing chess with
  | nil => simp [gmamLoop] at h
  | cons b rest ih =>
    rw [gmamLoop] at h
    cases hdec : decode_move lib b chess with
    | none => rw [hdec] at h; simp at h
    | some m =>
      rw [hdec] at h
      simp only at h
      by_cases hreach : (q.is_reachable_by
          (get_material_count (lib.board (lib.play chess m)))
          (get_pawn_home (lib.board (lib.play chess m)))) = false
      · rw [if_pos hreach] at h; simp at h
      · rw [if_neg hreach] at h
        by_cases hm : q.matches lib (lib.play chess m) = true
        · rw [if_pos hm] at h
          refine ⟨[b], rest, rfl, lib.play chess m,
            by simp [replayMoves, hdec], hm, ?_⟩
          cases rest with
          | nil =>
            left
            have h2 : (some "*" : Option String) = some s := h
            exact ⟨rfl, (Option.some_inj.mp h2).symm⟩
          | cons nb suf2 =>
            right
            have h2 : (match decode_move lib nb (lib.play chess m) with
                | some nm => some (lib.san (lib.play chess m) nm)
                | none => none) = some s := h
            cases hdec2 : decode_move lib nb (lib.play chess m) with
            | none => rw [hdec2] at h2; simp at h2
            | some nm =>
              rw [hdec2] at h2
              exact ⟨nb, suf2, rfl, nm, hdec2, (Option.some_inj.mp h2).symm⟩
        · rw [if_neg hm] at h
          obtain ⟨pre, suf, hsplit, p, hrep, hmp, hcont⟩ := ih (lib.play chess m) h
          refine ⟨b :: pre, suf, by simp [hsplit], p, ?_, hmp, hcont⟩
          simp [replayMoves, hdec, hrep]

/-- C2: whenever get_move_after_match reports a continuation, replaying
the decoded moves of some prefix of the blob from the starting position
reaches a position matching the query, and the continuation is the SAN of
the move decoded immediately after that prefix; when the prefix is the
whole blob (the match landed on the last byte, or the blob is empty and
the start matches), the continuation is the game end marker. -/
theorem c2_gmam_sound {Pos M : Type} (lib : ChessLib Pos M)
    (move_blob : List Nat) (fen : Option String) (q : PositionQuery Pos)
    (start : Pos) (s : String)
    (hstart : startOf lib fen = .ok start)
    (h : get_move_after_match lib move_blob fen q = .ok (some s)) :
    ∃ pre suf, move_blob = pre ++ suf ∧
      ∃ p, replayMoves lib pre start = some p ∧ q.matches lib p = true ∧
        ((suf = [] ∧ s = "*") ∨
         (∃ nb suf2, suf = nb :: suf2 ∧
            ∃ nm, decode_move lib nb p = some nm ∧ s = lib.san p nm)) := by
  rw [get_move_after_match, hstart] at h
  have h2 : (if q.matches lib start = true then
      (match move_blob with
       | [] => Except.ok (some "*")
       | b :: _ =>
         match decode_move lib b start with
         | some m => Except.ok (some (lib.san start m))
         | none => Except.ok none) else
      Except.ok (gmamLoop lib q move_blob start)) =
      Except.ok (some s) := h
  clear h
  by_cases hm : q.matches lib start = true
  · rw [if_pos hm] at h2
    cases move_blob with
    | nil =>
      refine ⟨[], [], rfl, start, rfl, hm, Or.inl ⟨rfl, ?_⟩⟩
      have h3 : (Except.ok (some "*") : Except Error (Option String)) =
        Except.ok (some s) := h2
      simpa using (Except.ok.inj h3).symm
    | cons b rest =>
      have h3 : (match decode_move lib b start with
          | some m => Except.ok (some (lib.san start m))
          | none => (Except.ok none : Except Error (Option String))) =
          Except.ok (some s) := h2
      cases hdec : decode_move lib b start with
      | none => rw [hdec] at h3; simp at h3
      | some m =>
        rw [hdec] at h3
        refine ⟨[], b :: rest, rfl, start, rfl, hm,
          Or.inr ⟨b, rest, rfl, m, hdec, ?_⟩⟩
        simpa using (Except.ok.inj h3).symm
  · rw [if_neg hm] at h2
    have hl : gmamLoop lib q move_blob start = some s := by
      simpa using Except.ok.inj h2
    exact gmamLoop_spec lib q move_blob start s hl

/-- The subset query over the empty board: its masks have no flag set, so
it matches every position. Used to instantiate theorems at concrete
inputs. -/
def emptyPartialQuery : PositionQuery ConcPos :=
  PositionQuery.PartialQ
    { piece_positions := emptyBoard, material := { white := 0, black := 0 },
      masks := PartialMasks.from_setup emptyBoard }

/-- C2, witness: the soundness statement evaluated on the empty blob, no
stored FEN, and the match-everything subset query, where the reported
continuation is the game end marker. -/
theorem c2_gmam_sound_witness :
    ∃ pre suf, ([] : List Nat) = pre ++ suf ∧
      ∃ p, replayMoves concLib pre concLib.start = some p ∧
        emptyPartialQuery.matches concLib p = true ∧
        ((suf = [] ∧ "*" = "*") ∨
         (∃ nb suf2, suf = nb :: suf2 ∧
            ∃ nm, decode_move concLib nb p = some nm ∧
              "*" = concLib.san p nm)) :=
  c2_gmam_sound concLib [] none emptyPartialQuery concLib.start "*" rfl rfl

/-! ## search_position and the position result cache
(db/search.rs search_position, db/position_cache.rs) -/

/-- db/search.rs PositionStats: per-continuation aggregate counters. -/
structure PosStats where
  move_ : String
  white : Int
  draw : Int
  black : Int
  deriving DecidableEq, Repr

/-- One row of the games table as loaded into the in-memory vector by the
local scan: id, players, date, result, the encoded move blob, the stored
starting FEN, and the stored pawn-home and minimal-material columns (i32
in the store), plus the elo columns loaded by the average-elo branch. -/
structure GameRow where
  id : Int
  white_id : Int
  black_id : Int
  date : Option String
  result : Option String
  moves : List Nat
  fen : Option String
  pawn_home : Int
  white_material : Int
  black_material : Int
  white_elo : Option Int
  black_elo : Option Int
  deriving DecidableEq, Repr

/-- db/search.rs PositionQueryJs: the query position as sent by the UI. -/
structure PositionQueryJs where
  fen : String
  type_ : String
  deriving DecidableEq, Repr

/-- db/mod.rs GameSort. -/
inductive GameSort where
  | Id
  | Date
  | WhiteElo
  | BlackElo
  | AverageElo
  | PlyCount
  deriving DecidableEq, Repr

/-- Sort options of a game query; only the sort key steers the scan (the
direction only orders the reloaded detail rows). -/
structure SortOptions where
  sort : GameSort
  descending : Bool
  deriving DecidableEq, Repr

/-- db/mod.rs GameQueryJs, restricted to the fields read by
search_position. -/
structure GameQueryJs where
  position : Option PositionQueryJs
  player1 : Option Int
  player2 : Option Int
  start_date : Option String
  end_date : Option String
  wanted_result : Option String
  options : Option SortOptions
  game_details_limit : Option Nat
  deriving DecidableEq, Repr

/-- The normalization of the wanted_result filter applied before the scan:
UI words become result strings, anything else clears the filter. -/
def wantedResult (r : Option String) : Option String :=
  match r with
  | some "whitewon" => some "1-0"
  | some "blackwon" => some "0-1"
  | some "draw" => some "1/2-1/2"
  | _ => none

/-- The as-u16 cast applied to the stored pawn_home column. -/
def toU16 (n : Int) : Nat := (n % 65536).toNat

/-- The as-u8 cast applied to the stored material columns. -/
def toU8 (n : Int) : Nat := (n % 256).toNat

/-- One result increment of the continuation statistics entry, following
the match on the result string of the row. -/
def bumpStats (result : Option String) (s : PosStats) : PosStats :=
  match result with
  | some "1-0" => { s with white := s.white + 1 }
  | some "0-1" => { s with black := s.black + 1 }
  | some "1/2-1/2" => { s with draw := s.draw + 1 }
  | _ => s

/-- The freshly inserted continuation statistics entry for a move. -/
def initStats (m : String) (result : Option String) : PosStats :=
  match result with
  | some "1-0" => { move_ := m, white := 1, black := 0, draw := 0 }
  | some "0-1" => { move_ := m, white := 0, black := 1, draw := 0 }
  | some "1/2-1/2" => { move_ := m, white := 0, black := 0, draw := 1 }
  | _ => { move_ := m, white := 0, black := 0, draw := 0 }

/-- The occupied-or-vacant update of the concurrent continuation map,
modelled as an association list in insertion order keyed by the move. -/
def updateOpenings (openings : List PosStats) (m : String)
    (result : Option String) : List PosStats :=
  match openings with
  | [] => [initStats m result]
  | s :: rest =>
    if s.move_ = m then bumpStats result s :: rest
    else s :: updateOpenings rest m result

/-- The shared user filters of the per-row worker: player, result, and
date range checks, each skipping the row on mismatch. True means the row
is rejected. -/
def rowFiltered (q : GameQueryJs) (r : GameRow) : Bool :=
  (match q.player1 with
   | some white => white != r.white_id
   | none => false) ||
  (match q.player2 with
   | some black => black != r.black_id
   | none => false) ||
  (match wantedResult q.wanted_result with
   | some expected => r.result != some expected
   | none => false) ||
  (match q.start_date, r.date with
   | some sd, some d => decide (d < sd)
   | _, _ => false) ||
  (match q.end_date, r.date with
   | some ed, some d => decide (ed < d)
   | _, _ => false)

/-- Scan state of the plain local branch: the continuation map and the
first-come sample of matching game ids. -/
structure ScanState where
  openings : List PosStats
  sample : List Int
  deriving DecidableEq, Repr

/-- The per-row worker of the plain local branch (branch B of
search_position_local_internal): skip when cancellation saturated the
permits, apply the user filters, check can_reach against the stored final
material and pawn-home columns, then run get_move_after_match and fold a
reported continuation into the statistics and the capped sample. -/
def processRow {Pos M : Type} (lib : ChessLib Pos M) (permits : Nat)
    (pq : PositionQuery Pos) (q : GameQueryJs) (st : ScanState)
    (r : GameRow) : ScanState :=
  if permits = 0 then st
  else if rowFiltered q r then st
  else
    let endMaterial : MaterialCount :=
      { white := toU8 r.white_material, black := toU8 r.black_material }
    if pq.can_reach endMaterial (toU16 r.pawn_home) = false then st
    else
      match get_move_after_match lib r.moves r.fen pq with
      | .ok (some m) =>
        { openings := updateOpenings st.openings m r.result
          sample := if st.sample.length < 1000 then st.sample ++ [r.id]
                    else st.sample }
      | _ => st

/-- Plain local scan (branch B): fold the worker over the loaded rows; an
empty table short-circuits to empty results. -/
def localScanPlain {Pos M : Type} (lib : ChessLib Pos M) (permits : Nat)
    (pq : PositionQuery Pos) (q : GameQueryJs) (rows : List GameRow) :
    List PosStats × List Int :=
  if rows.length = 0 then ([], [])
  else
    let final := rows.foldl (processRow lib permits pq q) ⟨[], []⟩
    (final.openings, final.sample)

/-- avg_elo of the average-elo branch. -/
def avg_elo (w b : Option Int) : Int :=
  match w, b with
  | some w, some b => (w + b + 1) / 2
  | some w, none => w
  | none, some b => b
  | none, none => 0

/-- The index and value of the first minimal average in the top-K buffer
(the linear scan of push_top_k). -/
def findMinIdx (v : List (Int × Int)) : Nat × Int :=
  match v with
  | [] => (0, 0)
  | v0 :: rest =>
    (rest.enumFrom 1).foldl
      (fun acc p => if p.2.1 < acc.2 then (p.1, p.2.1) else acc) (0, v0.1)

/-- push_top_k of the average-elo branch: append while below capacity,
else replace the first minimal entry when the new average is larger. The
empty-buffer case below capacity zero never arises with the fixed capacity
of 1000. -/
def push_top_k (v : List (Int × Int)) (k : Nat) (item : Int × Int) :
    List (Int × Int) :=
  if v.length < k then v ++ [item]
  else
    match v with
    | [] => []
    | _ :: _ =>
      let mi := findMinIdx v
      if mi.2 < item.1 then v.set mi.1 item else v

/-- Scan state of the average-elo branch: the sample keeps pairs of
average elo and id. -/
structure ScanStateAvg where
  openings : List PosStats
  sample : List (Int × Int)
  deriving DecidableEq, Repr

/-- The per-row worker of the average-elo branch (branch A): identical
filters and reachability check, with the sample kept as a top-K by average
elo. -/
def processRowAvg {Pos M : Type} (lib : ChessLib Pos M) (permits : Nat)
    (pq : PositionQuery Pos) (q : GameQueryJs) (st : ScanStateAvg)
    (r : GameRow) : ScanStateAvg :=
  if permits = 0 then st
  else if rowFiltered q r then st
  else
    let endMaterial : MaterialCount :=
      { white := toU8 r.white_material, black := toU8 r.black_material }
    if pq.can_reach endMaterial (toU16 r.pawn_home) = false then st
    else
      match get_move_after_match lib r.moves r.fen pq with
      | .ok (some m) =>
        { openings := updateOpenings st.openings m r.result
          sample := push_top_k st.sample 1000
            (avg_elo r.white_elo r.black_elo, r.id) }
      | _ => st

/-- Average-elo local scan (branch A): fold the worker, then sort the
top-K best-first by average elo and keep the ids. -/
def localScanAvg {Pos M : Type} (lib : ChessLib Pos M) (permits : Nat)
    (pq : PositionQuery Pos) (q : GameQueryJs) (rows : List GameRow) :
    List PosStats × List Int :=
  if rows.length = 0 then ([], [])
  else
    let final := rows.foldl (processRowAvg lib permits pq q) ⟨[], []⟩
    (final.openings,
      (final.sample.mergeSort (fun a b => b.1 ≤ a.1)).map Prod.snd)

/-- db/search.rs search_position_local_internal: the average-elo sort key
selects the top-K branch, everything else the plain branch. -/
def search_position_local_internal {Pos M : Type} (lib : ChessLib Pos M)
    (permits : Nat) (pq : PositionQuery Pos) (q : GameQueryJs)
    (rows : List GameRow) : List PosStats × List Int :=
  let sortAvg := match q.options with
    | some o => decide (o.sort = GameSort.AverageElo)
    | none => false
  if sortAvg then localScanAvg lib permits pq q rows
  else localScanPlain lib permits pq q rows

/-- db/search.rs PositionQuery::exact_from_fen over the abstract chess
interface: parse, then precompute the pawn-home word and the material of
the target board. -/
def exact_from_fen {Pos M : Type} (lib : ChessLib Pos M) (fen : String) :
    Except Error (PositionQuery Pos) :=
  match lib.parseFen fen with
  | some position =>
    .ok (.Exact
      { pawn_home := get_pawn_home (lib.board position)
        material := get_material_count (lib.board position)
        position := position })
  | none => .error .FenError

/-- db/search.rs PositionQuery::partial_from_fen: parse the setup board
and build the family masks. -/
def partial_from_fen {Pos M : Type} (lib : ChessLib Pos M) (fen : String) :
    Except Error (PositionQuery Pos) :=
  match lib.parseSetupBoard fen with
  | some b =>
    .ok (.PartialQ
      { piece_positions := b
        material := get_material_count b
        masks := PartialMasks.from_setup b })
  | none => .error .FenError

/-- db/search.rs convert_position_query. -/
def convert_position_query {Pos M : Type} (lib : ChessLib Pos M)
    (pq : PositionQueryJs) : Except Error (PositionQuery Pos) :=
  if pq.type_ = "exact" then exact_from_fen lib pq.fen
  else if pq.type_ = "partial" then partial_from_fen lib pq.fen
  else .error .FenError

/-- The persistent position result cache of position_cache.rs, abstracted
to entries keyed by the pair of FEN and normalized database path, holding
the continuation statistics and the ordered matching game ids. -/
structure PosCache where
  entries : List ((String × String) × (List PosStats × List Int))
  deriving DecidableEq, Repr

/-- Lookup of is_position_cached / get_cached_position: the first entry
with the given key. -/
def lookupCache (c : PosCache) (k : String × String) :
    Option (List PosStats × List Int) :=
  (c.entries.find? (fun e => e.1 == k)).map Prod.snd

/-- save_position_cache: replace any entry of the same key. -/
def saveCache (c : PosCache) (k : String × String)
    (v : List PosStats × List Int) : PosCache :=
  { entries := (k, v) :: c.entries.filter (fun e => e.1 != k) }

/-- db/search.rs search_position, embedded sequentially. The permits value
is the available-permits count the run observes; norm is the path
normalization of the cache (filesystem canonicalization, an external
collaborator); rows is the content of the games table. The returned pair
is the command result (continuation statistics and the ids selected for
detail loading) and the cache after the call. Mirrors the source order:
position extraction, cache probe and early return on a hit, query
conversion, the local scan, the cancellation check, then the cache write
of the full id list and the successful return. -/
def search_position {Pos M : Type} (lib : ChessLib Pos M)
    (norm : String → String) (permits : Nat) (cache : PosCache)
    (rows : List GameRow) (file : String) (q : GameQueryJs) :
    Except Error (List PosStats × List Int) × PosCache :=
  match q.position with
  | none => (.error .NoMatchFound, cache)
  | some pos_query =>
    let fen := pos_query.fen
    match lookupCache cache (fen, norm file) with
    | some cachedEntry =>
      let limit := min (q.game_details_limit.getD 10) 1000
      (.ok (cachedEntry.1, cachedEntry.2.take limit), cache)
    | none =>
      match convert_position_query lib pos_query with
      | .error e => (.error e, cache)
      | .ok position_query =>
        let scanned := search_position_local_internal lib permits
          position_query q rows
        if permits = 0 then (.error .SearchStopped, cache)
        else
          let limit := min (q.game_details_limit.getD 10) 1000
          let ids_to_load := scanned.2.take limit
          let cache2 := saveCache cache (fen, norm file)
            (scanned.1, scanned.2)
          (.ok (scanned.1, ids_to_load), cache2)

/-- C6: an invocation that misses the result cache, converts its position
query, and observes zero available permits (cancellation by a newer
request) returns SearchStopped, and the persistent position result cache
is left unchanged: in particular no entry is written for the pair of FEN
and database path. -/
theorem c6_cancellation_no_cache_write {Pos M : Type} (lib : ChessLib Pos M)
    (norm : String → String) (cache : PosCache) (rows : List GameRow)
    (file : String) (q : GameQueryJs) (pq : PositionQueryJs)
    (posQ : PositionQuery Pos)
    (hpos : q.position = some pq)
    (hmiss : lookupCache cache (pq.fen, norm file) = none)
    (hconv : convert_position_query lib pq = .ok posQ) :
    search_position lib norm 0 cache rows file q =
      (.error .SearchStopped, cache) := by
  simp [search_position, hpos, hmiss, hconv]

/-- C6, witness: a cancelled search over an empty cache returns
SearchStopped and leaves the cache empty. -/
theorem c6_cancellation_no_cache_write_witness :
    search_position concLib (fun s => s) 0 { entries := [] } []
        "games.db3"
        { position := some { fen := "8/8/8/8/8/8/8/8", type_ := "partial" }
          player1 := none, player2 := none, start_date := none
          end_date := none, wanted_result := none, options := none
          game_details_limit := none } =
      (.error .SearchStopped, { entries := [] }) :=
  c6_cancellation_no_cache_write concLib (fun s => s) { entries := [] } []
    "games.db3"
    { position := some { fen := "8/8/8/8/8/8/8/8", type_ := "partial" }
      player1 := none, player2 := none, start_date := none
      end_date := none, wanted_result := none, options := none
      game_details_limit := none }
    { fen := "8/8/8/8/8/8/8/8", type_ := "partial" }
    (PositionQuery.PartialQ
      { piece_positions := emptyBoard
        material := get_material_count emptyBoard
        masks := PartialMasks.from_setup emptyBoard })
    rfl rfl rfl

/-- C7: the result cache is keyed only by FEN and normalized database
path; a hit returns the cached continuation statistics and the prefix of
the stored game-id list for any permits count, any table content, and any
values of the other query fields, and never touches the cache, so two
searches with the same FEN and database but different filters return the
same statistics. -/
theorem c7_cache_hit_ignores_filters {Pos M : Type} (lib : ChessLib Pos M)
    (norm : String → String) (permits1 permits2 : Nat) (cache : PosCache)
    (rows1 rows2 : List GameRow) (file : String) (q1 q2 : GameQueryJs)
    (pq1 pq2 : PositionQueryJs) (fen : String)
    (stats : List PosStats) (ids : List Int)
    (h1 : q1.position = some pq1) (h2 : q2.position = some pq2)
    (hf1 : pq1.fen = fen) (hf2 : pq2.fen = fen)
    (hhit : lookupCache cache (fen, norm file) = some (stats, ids)) :
    search_position lib norm permits1 cache rows1 file q1 =
      (.ok (stats, ids.take (min (q1.game_details_limit.getD 10) 1000)),
        cache)
    ∧ search_position lib norm permits2 cache rows2 file q2 =
      (.ok (stats, ids.take (min (q2.game_details_limit.getD 10) 1000)),
        cache) := by
  constructor
  · simp [search_position, h1, hf1, hhit]
  · simp [search_position, h2, hf2, hhit]

/-- The cached entry used by the C7 witness. -/
def c7Cache : PosCache :=
  { entries :=
      [(("F", "db"),
        ([{ move_ := "e4", white := 1, draw := 0, black := 0 }], [7, 8]))] }

/-- C7, witness: two searches on the same FEN and database, one without
filters and one with a player filter, a result filter, and a detail limit
of one, both return the cached statistics; only the detail prefix length
differs. -/
theorem c7_cache_hit_ignores_filters_witness :
    search_position concLib (fun s => s) 3 c7Cache [] "db"
        { position := some { fen := "F", type_ := "exact" }
          player1 := none, player2 := none, start_date := none
          end_date := none, wanted_result := none, options := none
          game_details_limit := none } =
      (.ok ([{ move_ := "e4", white := 1, draw := 0, black := 0 }],
        ([7, 8] : List Int).take (min ((none : Option Nat).getD 10) 1000)),
        c7Cache)
    ∧ search_position concLib (fun s => s) 0 c7Cache [] "db"
        { position := some { fen := "F", type_ := "exact" }
          player1 := some 5, player2 := none, start_date := none
          end_date := none, wanted_result := some "whitewon", options := none
          game_details_limit := some 1 } =
      (.ok ([{ move_ := "e4", white := 1, draw := 0, black := 0 }],
        ([7, 8] : List Int).take (min ((some 1 : Option Nat).getD 10) 1000)),
        c7Cache) :=
  c7_cache_hit_ignores_filters concLib (fun s => s) 3 0 c7Cache [] [] "db"
    { position := some { fen := "F", type_ := "exact" }
      player1 := none, player2 := none, start_date := none
      end_date := none, wanted_result := none, options := none
      game_details_limit := none }
    { position := some { fen := "F", type_ := "exact" }
      player1 := some 5, player2 := none, start_date := none
      end_date := none, wanted_result := some "whitewon", options := none
      game_details_limit := some 1 }
    { fen := "F", type_ := "exact" } { fen := "F", type_ := "exact" } "F"
    [{ move_ := "e4", white := 1, draw := 0, black := 0 }] [7, 8]
    rfl rfl rfl rfl rfl

/-! ## merge_players (db/mod.rs) -/

/-- One games row as far as merge_players touches it. -/
structure MergeGameRow where
  id : Int
  white_id : Int
  black_id : Int
  deriving DecidableEq, Repr

/-- The database state read and written by merge_players: games rows,
players rows (by id), and the Info table. -/
structure MergeDb where
  games : List MergeGameRow
  players : List Int
  info : List (String × String)
  deriving DecidableEq, Repr

/-- Insert-or-update of an Info entry (insert ... on conflict do update of
the source). -/
def upsertInfo (info : List (String × String)) (name value : String) :
    List (String × String) :=
  if info.any (fun e => e.1 == name) then
    info.map (fun e => if e.1 == name then (e.1, value) else e)
  else info ++ [(name, value)]

/-- The value of an Info entry: the first row of that name. -/
def lookupInfo (info : List (String × String)) (name : String) :
    Option String :=
  (info.find? (fun e => e.1 == name)).map Prod.snd

/-- db/mod.rs merge_players: refuse when some game pairs the two players
as opponents; otherwise reassign white references from player1 to player2,
then black references, delete player1 from the players table, and upsert
PlayerCount with the resulting player count. The returned pair is the
outcome and the database state after the call. -/
def merge_players (db : MergeDb) (player1 player2 : Int) :
    Except Error Unit × MergeDb :=
  if db.games.any (fun g =>
      (g.white_id == player1 && g.black_id == player2) ||
      (g.white_id == player2 && g.black_id == player1)) then
    (.error .NotDistinctPlayers, db)
  else
    let games2 := db.games.map (fun g =>
      if g.white_id == player1 then { g with white_id := player2 } else g)
    let games3 := games2.map (fun g =>
      if g.black_id == player1 then { g with black_id := player2 } else g)
    let players2 := db.players.filter (fun p => p != player1)
    let info2 := upsertInfo db.info "PlayerCount" (toString players2.length)
    (.ok (), { games := games3, players := players2, info := info2 })

/-- Removing one present element from a duplicate-free list of ids drops
the length by exactly one. -/
theorem length_filter_ne_of_mem_nodup (l : List Int) (a : Int)
    (hnd : l.Nodup) (ha : a ∈ l) :
    (l.filter (fun p => p != a)).length = l.length - 1 := by
  induction l with
  | nil => simp at ha
  | cons b t ih =>
    by_cases hab : a = b
    · subst hab
      have hnotin : a ∉ t := (List.nodup_cons.mp hnd).1
      have hall : t.filter (fun p => p != a) = t := by
        apply List.filter_eq_self.mpr
        intro x hx
        simp only [bne_iff_ne, ne_eq, decide_eq_true_eq]
        intro hxa
        exact hnotin (hxa ▸ hx)
      simp [List.filter_cons, hall]
    · have hat : a ∈ t := by
        rcases List.mem_cons.mp ha with h | h
        · exact absurd h hab
        · exact h
      have htpos : 0 < t.length := List.length_pos_of_mem hat
      have ihh := ih (List.nodup_cons.mp hnd).2 hat
      have hkeep : (b != a) = true := by
        rw [bne_iff_ne]
        exact fun h => hab h.symm
      simp [List.filter_cons, hkeep, ihh]
      omega

/-- Replacing the value of every row of a given name leaves the first row
of that name with the new value. -/
theorem find_replace (t : List (String × String)) (n v : String)
    (h : t.any (fun e => e.1 == n) = true) :
    (t.map (fun e => if e.1 == n then (e.1, v) else e)).find?
        (fun e => e.1 == n) = some (n, v) := by
  induction t with
  | nil => simp at h
  | cons e t ih =>
    by_cases he : e.1 == n
    · have hn : e.1 = n := by simpa using he
      simp [List.find?_cons, he, hn]
    · have h2 : t.any (fun e => e.1 == n) = true := by
        simp only [List.any_cons, he, Bool.false_or] at h
        exact h
      simp only [List.map_cons, List.find?_cons]
      rw [if_neg (by simpa using he)]
      simp only [he]
      exact ih h2

/-- The upserted Info entry reads back as the new value. -/
theorem lookupInfo_upsertInfo (info : List (String × String)) (n v : String) :
    lookupInfo (upsertInfo info n v) n = some v := by
  rw [upsertInfo]
  by_cases h : info.any (fun e => e.1 == n)
  · rw [if_pos h, lookupInfo, find_replace info n v h]
    rfl
  · rw [if_neg h, lookupInfo, List.find?_append]
    have hnone : info.find? (fun e => e.1 == n) = none := by
      apply List.find?_eq_none.mpr
      intro x hx
      intro hxn
      exact h (List.any_eq_true.mpr ⟨x, hx, hxn⟩)
    simp [hnone]

/-- C8: for distinct players both present in the players table, the merge
refuses with NotDistinctPlayers and changes nothing when some game pairs
them as opponents; otherwise it rewrites every white and black reference
from player1 to player2, removes player1 from the players table, drops the
player count by one, and stores that count in the PlayerCount Info
entry. -/
theorem c8_merge_players (db : MergeDb) (player1 player2 : Int)
    (hne : player1 ≠ player2) (hp1 : player1 ∈ db.players)
    (hnd : db.players.Nodup) :
    ((∃ g ∈ db.games,
        (g.white_id = player1 ∧ g.black_id = player2) ∨
        (g.white_id = player2 ∧ g.black_id = player1)) →
      merge_players db player1 player2 = (.error .NotDistinctPlayers, db))
    ∧ (¬ (∃ g ∈ db.games,
        (g.white_id = player1 ∧ g.black_id = player2) ∨
        (g.white_id = player2 ∧ g.black_id = player1)) →
      ∃ db2, merge_players db player1 player2 = (.ok (), db2) ∧
        db2.games = db.games.map (fun g =>
          { id := g.id
            white_id := if g.white_id = player1 then player2 else g.white_id
            black_id :=
              if g.black_id = player1 then player2 else g.black_id }) ∧
        (∀ g ∈ db2.games, g.white_id ≠ player1 ∧ g.black_id ≠ player1) ∧
        player1 ∉ db2.players ∧
        db2.players.length = db.players.length - 1 ∧
        lookupInfo db2.info "PlayerCount" =
          some (toString (db.players.length - 1))) := by
  have hcond : (db.games.any (fun g =>
      (g.white_id == player1 && g.black_id == player2) ||
      (g.white_id == player2 && g.black_id == player1)) = true) ↔
      (∃ g ∈ db.games,
        (g.white_id = player1 ∧ g.black_id = player2) ∨
        (g.white_id = player2 ∧ g.black_id = player1)) := by
    simp [List.any_eq_true]
  constructor
  · intro hex
    rw [merge_players, if_pos (hcond.mpr hex)]
  · intro hnex
    have hcc : ¬ (db.games.any (fun g =>
        (g.white_id == player1 && g.black_id == player2) ||
        (g.white_id == player2 && g.black_id == player1)) = true) :=
      fun hh => hnex (hcond.mp hh)
    have hrun : merge_players db player1 player2 =
        (.ok (),
          { games := (db.games.map (fun g =>
              if g.white_id == player1 then { g with white_id := player2 }
              else g)).map (fun g =>
                if g.black_id == player1 then { g with black_id := player2 }
                else g)
            players := db.players.filter (fun p => p != player1)
            info := upsertInfo db.info "PlayerCount"
              (toString
                ((db.players.filter (fun p => p != player1)).length)) }) := by
      rw [merge_players, if_neg hcc]
    have hlen := length_filter_ne_of_mem_nodup db.players player1 hnd hp1
    have hmap : (db.games.map (fun g =>
        if g.white_id == player1 then { g with white_id := player2 }
        else g)).map (fun g =>
          if g.black_id == player1 then { g with black_id := player2 }
          else g) =
        db.games.map (fun g =>
          ({ id := g.id
             white_id := if g.white_id = player1 then player2 else g.white_id
             black_id :=
               if g.black_id = player1 then player2 else g.black_id } :
            MergeGameRow)) := by
      rw [List.map_map]
      apply List.map_congr_left
      intro g _
      by_cases hw : g.white_id = player1 <;>
        by_cases hb : g.black_id = player1 <;>
        simp [Function.comp, hw, hb]
    refine ⟨_, hrun, hmap, ?_, ?_, ?_, ?_⟩
    · intro g hg
      have hg2 : g ∈ db.games.map (fun g =>
          ({ id := g.id
             white_id := if g.white_id = player1 then player2 else g.white_id
             black_id :=
               if g.black_id = player1 then player2 else g.black_id } :
            MergeGameRow)) := by
        rw [← hmap]
        exact hg
      rw [List.mem_map] at hg2
      obtain ⟨g0, _, hg0⟩ := hg2
      subst hg0
      constructor
      · show (if g0.white_id = player1 then player2 else g0.white_id) ≠ player1
        by_cases hw : g0.white_id = player1
        · rw [if_pos hw]
          exact Ne.symm hne
        · rw [if_neg hw]
          exact hw
      · show (if g0.black_id = player1 then player2 else g0.black_id) ≠ player1
        by_cases hb : g0.black_id = player1
        · rw [if_pos hb]
          exact Ne.symm hne
        · rw [if_neg hb]
          exact hb
    · intro hmem
      have hmem2 : player1 ∈ db.players.filter (fun p => p != player1) := hmem
      rw [List.mem_filter] at hmem2
      simp at hmem2
    · exact hlen
    · show lookupInfo (upsertInfo db.info "PlayerCount"
        (toString ((db.players.filter (fun p => p != player1)).length)))
          "PlayerCount" = some (toString (db.players.length - 1))
      rw [hlen]
      exact lookupInfo_upsertInfo db.info "PlayerCount"
        (toString (db.players.length - 1))

/-- The database of the C8 witness: two players, one game that does not
pair them as opponents. -/
def c8Db : MergeDb :=
  { games := [{ id := 1, white_id := 10, black_id := 30 }]
    players := [10, 20]
    info := [] }

/-- C8, witness: the merge characterization applied to the concrete
two-player table. -/
theorem c8_merge_players_witness :
    ((∃ g ∈ c8Db.games,
        (g.white_id = 10 ∧ g.black_id = 20) ∨
        (g.white_id = 20 ∧ g.black_id = 10)) →
      merge_players c8Db 10 20 = (.error .NotDistinctPlayers, c8Db))
    ∧ (¬ (∃ g ∈ c8Db.games,
        (g.white_id = 10 ∧ g.black_id = 20) ∨
        (g.white_id = 20 ∧ g.black_id = 10)) →
      ∃ db2, merge_players c8Db 10 20 = (.ok (), db2) ∧
        db2.games = c8Db.games.map (fun g =>
          { id := g.id
            white_id := if g.white_id = 10 then 20 else g.white_id
            black_id := if g.black_id = 10 then 20 else g.black_id }) ∧
        (∀ g ∈ db2.games, g.white_id ≠ 10 ∧ g.black_id ≠ 10) ∧
        (10 : Int) ∉ db2.players ∧
        db2.players.length = c8Db.players.length - 1 ∧
        lookupInfo db2.info "PlayerCount" =
          some (toString (c8Db.players.length - 1))) :=
  c8_merge_players c8Db 10 20 (by decide) (by decide) (by decide)

/-! ## The puzzle catalog sampler (puzzle.rs) -/

/-- A puzzle row joined with its junction rows: the rating column, the
theme tokens (one junction row per whitespace token of the themes column)
and the opening-tag discriminants (the junction table indexes only the
first token of the opening_tags column). -/
structure Puzzle where
  id : Int
  rating : Int
  themes : List String
  openingTags : List String
  deriving DecidableEq, Repr

/-- Eligibility of a puzzle row under the filters of the catalog query:
the rating window of the WHERE clause, and, for each supplied non-empty
tag list, the INNER JOIN with an IN-list over the junction table, which
requires at least one listed token on the row. -/
def puzzleEligible (minRating maxRating : Nat)
    (themes openingTags : Option (List String)) (p : Puzzle) : Bool :=
  decide ((minRating : Int) ≤ p.rating) &&
  decide (p.rating ≤ (maxRating : Int)) &&
  (match themes with
   | some l => l.isEmpty || l.any (fun t => p.themes.contains t)
   | none => true) &&
  (match openingTags with
   | some l => l.isEmpty || l.any (fun t => p.openingTags.contains t)
   | none => true)

/-- The eligible rows of the catalog in table (id) order. -/
def eligiblePuzzles (db : List Puzzle) (minRating maxRating : Nat)
    (themes openingTags : Option (List String)) : List Puzzle :=
  db.filter (puzzleEligible minRating maxRating themes openingTags)

/-- puzzle.rs PuzzleCache::get_puzzles_with_normalized_tables: count the
eligible rows; on the random path fetch a cache_size window at a random
offset in id order and shuffle it in memory, else take the first
cache_size rows. randomOffset and shuffle stand for the random number
generator of the source. -/
def normalizedTablesQuery (db : List Puzzle) (minRating maxRating : Nat)
    (random : Bool) (themes openingTags : Option (List String))
    (cacheSize : Nat) (randomOffset : Nat)
    (shuffle : List Puzzle → List Puzzle) : List Puzzle :=
  let elig := eligiblePuzzles db minRating maxRating themes openingTags
  if random then
    let totalCount := elig.length
    if totalCount = 0 then []
    else
      let offset := if totalCount > cacheSize then
          randomOffset % (totalCount - min cacheSize totalCount)
        else 0
      let window := (elig.drop offset).take cacheSize
      if window.isEmpty then window else shuffle window
  else elig.take cacheSize

/-- puzzle.rs fallback query of get_puzzles_with_filters, taken when no
tag filter is supplied (with a tag filter present the migration
guarantees the junction tables and the normalized query runs): the rating
window only, ORDER BY RANDOM() LIMIT cache_size on the random path, else
the first cache_size rows in id and rating order. -/
def fallbackQuery (db : List Puzzle) (minRating maxRating : Nat)
    (random : Bool) (themes openingTags : Option (List String))
    (cacheSize : Nat) (shuffle : List Puzzle → List Puzzle) : List Puzzle :=
  let elig := eligiblePuzzles db minRating maxRating themes openingTags
  if random then (shuffle elig).take cacheSize
  else elig.take cacheSize

/-- puzzle.rs PuzzleCache: the bounded in-process cache with the filter
key of the window it holds. -/
structure PuzzleCacheState where
  cache : List Puzzle
  counter : Nat
  min_rating : Nat
  max_rating : Nat
  cache_size : Nat
  random : Bool
  themes : Option (List String)
  opening_tags : Option (List String)
  deriving DecidableEq, Repr

/-- PuzzleCache::new: empty cache, zero key, cache size 20, random set. -/
def PuzzleCacheState.initial : PuzzleCacheState :=
  { cache := [], counter := 0, min_rating := 0, max_rating := 0
    cache_size := 20, random := true, themes := none, opening_tags := none }

/-- The reload condition of PuzzleCache::get_puzzles_with_filters: empty
cache, any changed filter or random flag, or a counter at or past
cache_size. -/
def needsReload (st : PuzzleCacheState) (minRating maxRating : Nat)
    (random : Bool) (themes openingTags : Option (List String)) : Bool :=
  st.cache.isEmpty || decide (st.min_rating ≠ minRating) ||
  decide (st.max_rating ≠ maxRating) || decide (st.random ≠ random) ||
  decide (st.themes ≠ themes) || decide (st.opening_tags ≠ openingTags) ||
  decide (st.cache_size ≤ st.counter)

/-- puzzle.rs PuzzleCache::get_puzzles_with_filters: reload the cache when
the reload condition holds, with the normalized-tables query when a tag
filter is supplied and the fallback query otherwise, resetting the counter
and recording the filter key. -/
def get_puzzles_with_filters (st : PuzzleCacheState) (db : List Puzzle)
    (minRating maxRating : Nat) (random : Bool)
    (themes openingTags : Option (List String)) (randomOffset : Nat)
    (shuffle : List Puzzle → List Puzzle) : PuzzleCacheState :=
  if needsReload st minRating maxRating random themes openingTags then
    let newPuzzles :=
      if themes.isSome || openingTags.isSome then
        normalizedTablesQuery db minRating maxRating random themes
          openingTags st.cache_size randomOffset shuffle
      else
        fallbackQuery db minRating maxRating random themes openingTags
          st.cache_size shuffle
    { cache := newPuzzles, counter := 0, min_rating := minRating
      max_rating := maxRating, cache_size := st.cache_size
      random := random, themes := themes, opening_tags := openingTags }
  else st

/-- puzzle.rs PuzzleCache::get_next_puzzle: serve the cache entry at the
counter and advance it, or nothing past the end. -/
def get_next_puzzle (st : PuzzleCacheState) :
    Option Puzzle × PuzzleCacheState :=
  match st.cache.get? st.counter with
  | some p => (some p, { st with counter := st.counter + 1 })
  | none => (none, st)

/-- puzzle.rs get_puzzle: refresh the cache through
get_puzzles_with_filters, then serve the next puzzle, or NoPuzzles when
the cache yields none. The pair is the outcome and the cache state after
the call. -/
def get_puzzle (st : PuzzleCacheState) (db : List Puzzle)
    (minRating maxRating : Nat) (random : Bool)
    (themes openingTags : Option (List String)) (randomOffset : Nat)
    (shuffle : List Puzzle → List Puzzle) :
    Except Error Puzzle × PuzzleCacheState :=
  let st2 := get_puzzles_with_filters st db minRating maxRating random
    themes openingTags randomOffset shuffle
  match get_next_puzzle st2 with
  | (some p, st3) => (.ok p, st3)
  | (none, st3) => (.error .NoPuzzles, st3)

/-- The normalized-tables query is empty exactly when no row is eligible,
provided the window size is positive and shuffling preserves emptiness. -/
theorem normalizedTablesQuery_nil_iff (db : List Puzzle)
    (minR maxR : Nat) (random : Bool)
    (themes openingTags : Option (List String)) (cs rand : Nat)
    (shuffle : List Puzzle → List Puzzle) (hcs : 0 < cs)
    (hsn : ∀ l, (shuffle l).isEmpty = l.isEmpty) :
    (normalizedTablesQuery db minR maxR random themes openingTags cs rand
        shuffle = [] ↔
      eligiblePuzzles db minR maxR themes openingTags = []) := by
  have hcs0 : cs ≠ 0 := by omega
  rw [normalizedTablesQuery]
  cases random with
  | false =>
    rw [if_neg (by simp)]
    simp [List.take_eq_nil_iff, hcs0]
  | true =>
    rw [if_pos rfl]
    by_cases ht : (eligiblePuzzles db minR maxR themes openingTags).length = 0
    · rw [if_pos ht]
      have he := List.length_eq_zero.mp ht
      simp [he]
    · rw [if_neg ht]
      have hne : eligiblePuzzles db minR maxR themes openingTags ≠ [] := by
        intro he
        exact ht (by rw [he]; rfl)
      have hoff : (if (eligiblePuzzles db minR maxR themes openingTags).length > cs
          then rand % ((eligiblePuzzles db minR maxR themes openingTags).length -
            min cs (eligiblePuzzles db minR maxR themes openingTags).length)
          else 0) < (eligiblePuzzles db minR maxR themes openingTags).length := by
        by_cases hgt : (eligiblePuzzles db minR maxR themes openingTags).length > cs
        · rw [if_pos hgt]
          have hmin : min cs (eligiblePuzzles db minR maxR themes openingTags).length
              = cs := Nat.min_eq_left (Nat.le_of_lt hgt)
          rw [hmin]
          have hmod := Nat.mod_lt rand (y :=
            (eligiblePuzzles db minR maxR themes openingTags).length - cs)
          omega
        · rw [if_neg hgt]
          omega
      have hwlen : (((eligiblePuzzles db minR maxR themes openingTags).drop
          (if (eligiblePuzzles db minR maxR themes openingTags).length > cs
           then rand % ((eligiblePuzzles db minR maxR themes openingTags).length -
             min cs (eligiblePuzzles db minR maxR themes openingTags).length)
           else 0)).take cs).length ≠ 0 := by
        rw [List.length_take, List.length_drop]
        omega
      have hwne : ((eligiblePuzzles db minR maxR themes openingTags).drop
          (if (eligiblePuzzles db minR maxR themes openingTags).length > cs
           then rand % ((eligiblePuzzles db minR maxR themes openingTags).length -
             min cs (eligiblePuzzles db minR maxR themes openingTags).length)
           else 0)).take cs ≠ [] := by
        intro hw
        exact hwlen (by rw [hw]; rfl)
      rw [if_neg (by
        rw [ne_eq, ← List.isEmpty_iff] at hwne
        simpa using hwne)]
      constructor
      · intro hs
        have := hsn (((eligiblePuzzles db minR maxR themes openingTags).drop
          (if (eligiblePuzzles db minR maxR themes openingTags).length > cs
           then rand % ((eligiblePuzzles db minR maxR themes openingTags).length -
             min cs (eligiblePuzzles db minR maxR themes openingTags).length)
           else 0)).take cs)
        rw [hs] at this
        simp only [List.isEmpty_nil] at this
        exact absurd (List.isEmpty_iff.mp this.symm) hwne
      · intro he
        exact absurd he hne

/-- Every row of the normalized-tables query is eligible, provided
shuffling returns elements of its input. -/
theorem normalizedTablesQuery_mem (db : List Puzzle)
    (minR maxR : Nat) (random : Bool)
    (themes openingTags : Option (List String)) (cs rand : Nat)
    (shuffle : List Puzzle → List Puzzle)
    (hsm : ∀ l x, x ∈ shuffle l → x ∈ l) :
    ∀ x ∈ normalizedTablesQuery db minR maxR random themes openingTags cs
        rand shuffle,
      x ∈ eligiblePuzzles db minR maxR themes openingTags := by
  intro x hx
  rw [normalizedTablesQuery] at hx
  cases random with
  | false =>
    rw [if_neg (by simp)] at hx
    exact List.take_subset cs _ hx
  | true =>
    rw [if_pos rfl] at hx
    by_cases ht : (eligiblePuzzles db minR maxR themes openingTags).length = 0
    · rw [if_pos ht] at hx
      simp at hx
    · rw [if_neg ht] at hx
      by_cases hw : (((eligiblePuzzles db minR maxR themes openingTags).drop
          (if (eligiblePuzzles db minR maxR themes openingTags).length > cs
           then rand % ((eligiblePuzzles db minR maxR themes openingTags).length -
             min cs (eligiblePuzzles db minR maxR themes openingTags).length)
           else 0)).take cs).isEmpty
      · rw [if_pos hw] at hx
        exact List.drop_subset _ _ (List.take_subset cs _ hx)
      · rw [if_neg hw] at hx
        exact List.drop_subset _ _ (List.take_subset cs _ (hsm _ x hx))

/-- The fallback query is empty exactly when no row is eligible, provided
the window size is positive and shuffling preserves emptiness. -/
theorem fallbackQuery_nil_iff (db : List Puzzle) (minR maxR : Nat)
    (random : Bool) (themes openingTags : Option (List String)) (cs : Nat)
    (shuffle : List Puzzle → List Puzzle) (hcs : 0 < cs)
    (hsn : ∀ l, (shuffle l).isEmpty = l.isEmpty) :
    (fallbackQuery db minR maxR random themes openingTags cs shuffle = [] ↔
      eligiblePuzzles db minR maxR themes openingTags = []) := by
  have hcs0 : cs ≠ 0 := by omega
  rw [fallbackQuery]
  cases random with
  | false =>
    rw [if_neg (by simp)]
    simp [List.take_eq_nil_iff, hcs0]
  | true =>
    rw [if_pos rfl]
    rw [List.take_eq_nil_iff]
    constructor
    · intro hs
      rcases hs with hs | hs
      · exact absurd hs hcs0
      · have := hsn (eligiblePuzzles db minR maxR themes openingTags)
        rw [hs] at this
        simp only [List.isEmpty_nil] at this
        exact List.isEmpty_iff.mp this.symm
    · intro he
      right
      rw [he]
      have := hsn []
      simp only [List.isEmpty_nil] at this
      exact List.isEmpty_iff.mp this

/-- Every row of the fallback query is eligible, provided shuffling
returns elements of its input. -/
theorem fallbackQuery_mem (db : List Puzzle) (minR maxR : Nat)
    (random : Bool) (themes openingTags : Option (List String)) (cs : Nat)
    (shuffle : List Puzzle → List Puzzle)
    (hsm : ∀ l x, x ∈ shuffle l → x ∈ l) :
    ∀ x ∈ fallbackQuery db minR maxR random themes openingTags cs shuffle,
      x ∈ eligiblePuzzles db minR maxR themes openingTags := by
  intro x hx
  rw [fallbackQuery] at hx
  cases random with
  | false =>
    rw [if_neg (by simp)] at hx
    exact List.take_subset cs _ hx
  | true =>
    rw [if_pos rfl] at hx
    exact hsm _ x (List.take_subset cs _ hx)

/-- The one-puzzle catalog used against claim C9. -/
def c9Db : List Puzzle :=
  [{ id := 1, rating := 100, themes := [], openingTags := [] }]

/-- The cache state after one successful draw from the one-puzzle catalog
with a rating window covering it and no tag filters. -/
def c9State1 : PuzzleCacheState :=
  (get_puzzle PuzzleCacheState.initial c9Db 0 200 false none none 0
    (fun l => l)).2

/-- C9, counterexample. The claim states that get_puzzle returns NoPuzzles
iff no puzzle satisfies the filters. After one successful draw the window
of the one eligible puzzle is exhausted, but the reload condition
(counter at cache_size 20) does not fire, so the second identical call
returns NoPuzzles although an eligible puzzle exists. -/
theorem c9_get_puzzle_counterexample :
    (get_puzzle c9State1 c9Db 0 200 false none none 0 (fun l => l)).1 =
      .error .NoPuzzles
    ∧ eligiblePuzzles c9Db 0 200 none none ≠ [] := by
  constructor
  · rfl
  · decide

/-- C9, amended: on a call that reloads the in-process cache — the cache
is empty, a rating bound, the random flag, or a tag filter changed, or the
counter reached cache_size — get_puzzle returns NoPuzzles iff no puzzle
satisfies the filters (rating within the window and, per supplied
non-empty tag list, at least one matching theme and at least one matching
opening tag), and whenever it succeeds the returned puzzle satisfies the
filters. A call served from a previously drawn window smaller than
cache_size can return NoPuzzles even though matching puzzles exist. -/
theorem c9_get_puzzle_amended (st : PuzzleCacheState) (db : List Puzzle)
    (minRating maxRating : Nat) (random : Bool)
    (themes openingTags : Option (List String)) (randomOffset : Nat)
    (shuffle : List Puzzle → List Puzzle)
    (hreload : needsReload st minRating maxRating random themes openingTags
      = true)
    (hcs : 0 < st.cache_size)
    (hsn : ∀ l, (shuffle l).isEmpty = l.isEmpty)
    (hsm : ∀ l x, x ∈ shuffle l → x ∈ l) :
    ((get_puzzle st db minRating maxRating random themes openingTags
        randomOffset shuffle).1 = .error .NoPuzzles ↔
      eligiblePuzzles db minRating maxRating themes openingTags = [])
    ∧ (∀ p, (get_puzzle st db minRating maxRating random themes openingTags
        randomOffset shuffle).1 = .ok p →
      puzzleEligible minRating maxRating themes openingTags p = true) := by
  have hst2 : get_puzzles_with_filters st db minRating maxRating random
      themes openingTags randomOffset shuffle =
      { cache :=
          if themes.isSome || openingTags.isSome then
            normalizedTablesQuery db minRating maxRating random themes
              openingTags st.cache_size randomOffset shuffle
          else
            fallbackQuery db minRating maxRating random themes openingTags
              st.cache_size shuffle
        counter := 0, min_rating := minRating, max_rating := maxRating
        cache_size := st.cache_size, random := random, themes := themes
        opening_tags := openingTags } := by
    rw [get_puzzles_with_filters, if_pos hreload]
  have hnil : ((if themes.isSome || openingTags.isSome then
        normalizedTablesQuery db minRating maxRating random themes
          openingTags st.cache_size randomOffset shuffle
      else
        fallbackQuery db minRating maxRating random themes openingTags
          st.cache_size shuffle) = [] ↔
      eligiblePuzzles db minRating maxRating themes openingTags = []) := by
    by_cases hf : themes.isSome || openingTags.isSome
    · rw [if_pos hf]
      exact normalizedTablesQuery_nil_iff db minRating maxRating random
        themes openingTags st.cache_size randomOffset shuffle hcs hsn
    · rw [if_neg hf]
      exact fallbackQuery_nil_iff db minRating maxRating random themes
        openingTags st.cache_size shuffle hcs hsn
  have hmem : ∀ x ∈ (if themes.isSome || openingTags.isSome then
        normalizedTablesQuery db minRating maxRating random themes
          openingTags st.cache_size randomOffset shuffle
      else
        fallbackQuery db minRating maxRating random themes openingTags
          st.cache_size shuffle),
      x ∈ eligiblePuzzles db minRating maxRating themes openingTags := by
    by_cases hf : themes.isSome || openingTags.isSome
    · rw [if_pos hf]
      exact normalizedTablesQuery_mem db minRating maxRating random themes
        openingTags st.cache_size randomOffset shuffle hsm
    · rw [if_neg hf]
      exact fallbackQuery_mem db minRating maxRating random themes
        openingTags st.cache_size shuffle hsm
  have hrun : (get_puzzle st db minRating maxRating random themes
      openingTags randomOffset shuffle).1 =
      (match (if themes.isSome || openingTags.isSome then
          normalizedTablesQuery db minRating maxRating random themes
            openingTags st.cache_size randomOffset shuffle
        else
          fallbackQuery db minRating maxRating random themes openingTags
            st.cache_size shuffle).get? 0 with
       | some p => .ok p
       | none => .error .NoPuzzles) := by
    rw [get_puzzle, hst2]
    rw [get_next_puzzle]
    cases hg : (if themes.isSome || openingTags.isSome then
        normalizedTablesQuery db minRating maxRating random themes
          openingTags st.cache_size randomOffset shuffle
      else
        fallbackQuery db minRating maxRating random themes openingTags
          st.cache_size shuffle).get? 0 <;> simp [hg]
  constructor
  · rw [hrun]
    cases hg : (if themes.isSome || openingTags.isSome then
        normalizedTablesQuery db minRating maxRating random themes
          openingTags st.cache_size randomOffset shuffle
      else
        fallbackQuery db minRating maxRating random themes openingTags
          st.cache_size shuffle).get? 0 with
    | none =>
      simp only
      have hq : (if themes.isSome || openingTags.isSome then
          normalizedTablesQuery db minRating maxRating random themes
            openingTags st.cache_size randomOffset shuffle
        else
          fallbackQuery db minRating maxRating random themes openingTags
            st.cache_size shuffle) = [] := by
        cases hqq : (if themes.isSome || openingTags.isSome then
            normalizedTablesQuery db minRating maxRating random themes
              openingTags st.cache_size randomOffset shuffle
          else
            fallbackQuery db minRating maxRating random themes openingTags
              st.cache_size shuffle) with
        | nil => rfl
        | cons a t => rw [hqq] at hg; simp at hg
      simp [hnil.mp hq]
    | some p =>
      simp only
      constructor
      · intro hh
        simp at hh
      · intro he
        have hq := hnil.mpr he
        rw [hq] at hg
        simp at hg
  · intro p hp
    rw [hrun] at hp
    cases hg : (if themes.isSome || openingTags.isSome then
        normalizedTablesQuery db minRating maxRating random themes
          openingTags st.cache_size randomOffset shuffle
      else
        fallbackQuery db minRating maxRating random themes openingTags
          st.cache_size shuffle).get? 0 with
    | none => rw [hg] at hp; simp at hp
    | some p2 =>
      rw [hg] at hp
      simp only [Except.ok.injEq] at hp
      subst hp
      exact List.of_mem_filter (hmem p2 (List.get?_mem hg))

/-- C9, amended witness: the characterization applied to the one-puzzle
catalog from the fresh cache state, with the identity permutation for the
random shuffle. -/
theorem c9_get_puzzle_amended_witness :
    ((get_puzzle PuzzleCacheState.initial c9Db 0 200 false none none 0
        (fun l => l)).1 = .error .NoPuzzles ↔
      eligiblePuzzles c9Db 0 200 none none = [])
    ∧ (∀ p, (get_puzzle PuzzleCacheState.initial c9Db 0 200 false none none
        0 (fun l => l)).1 = .ok p →
      puzzleEligible 0 200 none none p = true) :=
  c9_get_puzzle_amended PuzzleCacheState.initial c9Db 0 200 false none none
    0 (fun l => l) (by decide) (by decide) (fun l => rfl)
    (fun l x h => h)

end PawnAppetit
